import Mathlib

/-!
Shallow embedding of the RustKV storage engine (src/kv.rs).

Modelling choices:
* File bytes are `List Nat` (each element one byte of the log file).
* Rust `String` keys/values are represented by their UTF-8 byte sequences
  (`List Nat`).  The bincode record layout only frames byte strings with a
  length prefix, and every byte string written by `set`/`remove` comes from a
  Rust `String`, so re-decoding those exact bytes always passes the UTF-8
  check; the UTF-8 validation step is therefore not modelled.
* The on-the-wire format is bincode 1.x with the legacy options used by the
  free functions `bincode::serialize_into` / `bincode::deserialize_from`:
  fixed-width little-endian integers, enum variant index as a `u32`
  (4 bytes), string length as a `u64` (8 bytes) followed by the raw bytes.
* `bincode::deserialize_from` failures are split the way `KvStore::load`
  splits them: a failed `read_exact` (too few bytes left) surfaces as
  `Io(UnexpectedEof)` and is modelled as `DecodeResult.eofHit`; an invalid
  enum tag is a non-Io bincode error and is modelled as
  `DecodeResult.corrupt`.  Crucially, the code treats EVERY `eofHit` as a
  normal end of log, whether or not it occurs at a record boundary.
* The replay loop of `KvStore::load` is written with a fuel argument so that
  it stays structurally recursive (hence executable by `decide`/`rfl`); the
  fuel `b.length + 1` is always sufficient because each decoded record
  consumes at least four bytes, and the lemma `loadFrom_step` recovers the
  exact loop-step semantics, making the fuel an artifact of the embedding.
* The store state is the triple (log-file bytes, writer cursor, in-memory
  map).  `KvStore::open` opens the log with read+write+create but WITHOUT
  append mode and never seeks; the `BufWriter` wraps a `try_clone` of that
  handle (clones share one file cursor), while `load` reads through a
  separate `File::open` handle.  The writer cursor therefore sits at offset
  0 when `open` returns, and each serialize+flush in `set`/`remove` writes
  at the current cursor — overwriting existing bytes on a store reopened
  over a non-empty log — then advances it by the record length (`writeAt`).
  The Rust `HashMap` is modelled as a deterministic association list with
  the maps' insert/remove/get operations.  The outcome of the buffered
  serialize+write+flush in `set`/`remove` is an explicit
  `Except KvsError Unit` argument (`.ok ()` models a successful write,
  `.error e` a failed one), mirroring the `?` early returns in the source.
-/

namespace RustKV

/-- The error type of src/error.rs, payloads elided. -/
inductive KvsError where
  | io
  | serde
  | keyNotFound
  | internal
deriving DecidableEq, Repr

/-- The `Command` enum of src/kv.rs: the unit of serialization to the log. -/
inductive Command where
  | set (key value : List Nat)
  | remove (key : List Nat)
deriving DecidableEq, Repr

/-- Little-endian fixed 8-byte encoding of a `u64` length, as bincode writes it. -/
def encodeU64 (n : Nat) : List Nat :=
  [n % 256, n / 256 % 256, n / 256 ^ 2 % 256, n / 256 ^ 3 % 256,
   n / 256 ^ 4 % 256, n / 256 ^ 5 % 256, n / 256 ^ 6 % 256, n / 256 ^ 7 % 256]

/-- Value of an 8-byte little-endian `u64` field; only ever applied to 8-byte lists. -/
def decodeU64 (b : List Nat) : Nat :=
  match b with
  | [b0, b1, b2, b3, b4, b5, b6, b7] =>
      b0 + 256 * b1 + 256 ^ 2 * b2 + 256 ^ 3 * b3 +
      256 ^ 4 * b4 + 256 ^ 5 * b5 + 256 ^ 6 * b6 + 256 ^ 7 * b7
  | _ => 0

/-- bincode encoding of a Rust string: `u64` byte length, then the raw bytes. -/
def encodeBytes (s : List Nat) : List Nat :=
  encodeU64 s.length ++ s

/-- bincode encoding of one `Command`: `u32` variant tag, then the fields. -/
def encodeCmd : Command → List Nat
  | .set k v => [0, 0, 0, 0] ++ encodeBytes k ++ encodeBytes v
  | .remove k => [1, 0, 0, 0] ++ encodeBytes k

/-- Bytes of a log file holding exactly the given records, in order. -/
def encodeList : List Command → List Nat
  | [] => []
  | c :: t => encodeCmd c ++ encodeList t

/-- `read_exact` on the remaining bytes: `none` models `Io(UnexpectedEof)`. -/
def readExact (n : Nat) (b : List Nat) : Option (List Nat × List Nat) :=
  if n ≤ b.length then some (b.take n, b.drop n) else none

/-- Outcome of one `bincode::deserialize_from::<Command>` call, split the way
`KvStore::load` splits it. -/
inductive DecodeResult where
  | ok (c : Command) (rest : List Nat)
  | eofHit
  | corrupt
deriving DecidableEq, Repr

/-- Decode one length-prefixed string field. -/
def decodeStr (b : List Nat) : Option (List Nat × List Nat) :=
  match readExact 8 b with
  | none => none
  | some (lb, r) => readExact (decodeU64 lb) r

/-- Decode the fields of a `Command::Set` after its tag. -/
def decodeSetBody (b : List Nat) : DecodeResult :=
  match decodeStr b with
  | none => .eofHit
  | some (k, r) =>
    match decodeStr r with
    | none => .eofHit
    | some (v, r2) => .ok (.set k v) r2

/-- Decode the field of a `Command::Remove` after its tag. -/
def decodeRemoveBody (b : List Nat) : DecodeResult :=
  match decodeStr b with
  | none => .eofHit
  | some (k, r) => .ok (.remove k) r

/-- Decode one `Command` from the front of the bytes: 4-byte variant tag, then
the variant's fields.  An out-of-range tag is a non-Io bincode error. -/
def decodeCmd (b : List Nat) : DecodeResult :=
  match readExact 4 b with
  | none => .eofHit
  | some (tag, r1) =>
    if tag = [0, 0, 0, 0] then decodeSetBody r1
    else if tag = [1, 0, 0, 0] then decodeRemoveBody r1
    else .corrupt

/-- The in-memory map (`HashMap<String, String>`), as an association list. -/
def Index : Type := List (List Nat × List Nat)

instance : DecidableEq Index := inferInstanceAs (DecidableEq (List (List Nat × List Nat)))

/-- `HashMap::get`. -/
def Index.get : Index → List Nat → Option (List Nat)
  | [], _ => none
  | (p :: t), k => if p.1 = k then some p.2 else Index.get t k

/-- `HashMap::remove`, result map only (the Rust call also reports presence,
recovered here via `Index.get`). -/
def Index.erase : Index → List Nat → Index
  | [], _ => []
  | (p :: t), k => if p.1 = k then Index.erase t k else p :: Index.erase t k

/-- `HashMap::insert` (overwrite semantics). -/
def Index.insert (m : Index) (k v : List Nat) : Index :=
  (k, v) :: Index.erase m k

/-- Applying one replayed command to the map, as the two `Ok` arms of the
match in `KvStore::load` do. -/
def applyCmd (m : Index) : Command → Index
  | .set k v => m.insert k v
  | .remove k => m.erase k

/-- The replay loop of `KvStore::load`, with fuel to keep it structural.
Faithful to the source: an `eofHit` from anywhere inside
`deserialize_from` — record boundary or not — breaks the loop and returns
`Ok`; any other decode failure aborts the whole replay. -/
def loadIter : Nat → List Nat → Index → Except KvsError Index
  | 0, _, m => .ok m
  | Nat.succ f, b, m =>
    match decodeCmd b with
    | .eofHit => .ok m
    | .corrupt => .error .serde
    | .ok c rest => loadIter f rest (applyCmd m c)

/-- `KvStore::load` replaying into an arbitrary starting map. -/
def loadFrom (b : List Nat) (m : Index) : Except KvsError Index :=
  loadIter (b.length + 1) b m

/-- One write of `bytes` at file offset `pos`: bytes already there are
overwritten in place and the file grows only past its old end (the plain
write-then-flush of a non-append-mode file handle). -/
def writeAt (disk : List Nat) (pos : Nat) (bytes : List Nat) : List Nat :=
  disk.take pos ++ bytes ++ disk.drop (pos + bytes.length)

/-- The store state: the log file's bytes, the shared cursor of the writer's
file handle (offset 0 right after `open`, since the file is opened without
append mode and nothing seeks), and the in-memory map. -/
structure KvStore where
  disk : List Nat
  pos : Nat
  map : Index
deriving DecidableEq

/-- `KvStore::load` from an empty map, as `open` invokes it. -/
def KvStore.load (b : List Nat) : Except KvsError Index :=
  loadFrom b []

/-- `KvStore::open` (`open` is a Lean keyword): replay the log file's bytes
into a fresh map; any replay error fails the whole call. -/
def KvStore.openStore (disk : List Nat) : Except KvsError KvStore :=
  match KvStore.load disk with
  | .error e => .error e
  | .ok m => .ok ⟨disk, 0, m⟩

/-- `KvStore::set`.  `io` is the outcome of the buffered
serialize+write+flush; on failure the `?` operator returns before the map is
touched.  On success the record lands at the writer's current cursor — which
is the end of the file only if everything before it was written through this
writer — and the cursor advances. -/
def KvStore.set (s : KvStore) (key value : List Nat) (io : Except KvsError Unit) :
    Except KvsError Unit × KvStore :=
  match io with
  | .error e => (.error e, s)
  | .ok _ =>
    (.ok (), ⟨writeAt s.disk s.pos (encodeCmd (.set key value)),
              s.pos + (encodeCmd (.set key value)).length,
              s.map.insert key value⟩)

/-- `KvStore::get`: a read of the in-memory map; the state is returned
unchanged to make the absence of side effects explicit. -/
def KvStore.get (s : KvStore) (key : List Nat) :
    Except KvsError (Option (List Nat)) × KvStore :=
  (.ok (Index.get s.map key), s)

/-- `KvStore::remove`: write the `Remove` record at the writer's cursor
unconditionally, then remove from the map; report `KeyNotFound` when the map
had no such key. -/
def KvStore.remove (s : KvStore) (key : List Nat) (io : Except KvsError Unit) :
    Except KvsError Unit × KvStore :=
  match io with
  | .error e => (.error e, s)
  | .ok _ =>
    ((if (Index.get s.map key).isSome then .ok () else .error .keyNotFound),
     ⟨writeAt s.disk s.pos (encodeCmd (.remove key)),
      s.pos + (encodeCmd (.remove key)).length,
      Index.erase s.map key⟩)

/-- A command whose strings fit a Rust `usize`/`u64` length field. -/
def WFCmd : Command → Prop
  | .set k v => k.length < 2 ^ 64 ∧ v.length < 2 ^ 64
  | .remove k => k.length < 2 ^ 64

instance : DecidablePred WFCmd := fun c =>
  match c with
  | .set _ _ => inferInstanceAs (Decidable (_ ∧ _))
  | .remove _ => inferInstanceAs (Decidable (_ < _))

/-- Every command of the list fits the length fields. -/
def WFCmds (cs : List Command) : Prop := ∀ c ∈ cs, WFCmd c

instance : DecidablePred WFCmds := fun cs =>
  inferInstanceAs (Decidable (∀ c ∈ cs, WFCmd c))


instance {e a : Type} [DecidableEq e] [DecidableEq a] : DecidableEq (Except e a)
  | .error x, .error y =>
    if h : x = y then isTrue (by rw [h]) else isFalse (fun hc => by cases hc; exact h rfl)
  | .error _, .ok _ => isFalse (fun hc => by cases hc)
  | .ok _, .error _ => isFalse (fun hc => by cases hc)
  | .ok x, .ok y =>
    if h : x = y then isTrue (by rw [h]) else isFalse (fun hc => by cases hc; exact h rfl)

/-- UTF-8 bytes of the string literal used by the spec's durability scenario. -/
def fooB : List Nat := [102, 111, 111]

/-- UTF-8 bytes of the value in the spec's durability scenario. -/
def barB : List Nat := [98, 97, 114]

/-- UTF-8 bytes of a second, distinct key. -/
def bazB : List Nat := [98, 97, 122]

/-- UTF-8 bytes of a second value. -/
def quxB : List Nat := [113, 117, 120]

/-- UTF-8 bytes of the absent key in the spec's remove-of-absent scenario. -/
def missB : List Nat := [109, 105, 115, 115, 105, 110, 103]

/-- UTF-8 bytes of a short key used in a pre-existing log. -/
def aaB : List Nat := [97, 97]

/-- UTF-8 bytes of a short value used in a pre-existing log. -/
def bbB : List Nat := [98, 98]

/-! Basic facts about the byte-level decoder. -/

theorem readExact_some {n : Nat} {b x r : List Nat} (h : readExact n b = some (x, r)) :
    n ≤ b.length ∧ x = b.take n ∧ r = b.drop n := by
  unfold readExact at h
  split at h
  · cases h
    exact ⟨by assumption, rfl, rfl⟩
  · simp at h

theorem readExact_append (xs rest : List Nat) :
    readExact xs.length (xs ++ rest) = some (xs, rest) := by
  unfold readExact
  rw [if_pos (by simp)]
  rw [List.take_left, List.drop_left]

theorem decodeU64_encodeU64 {n : Nat} (h : n < 2 ^ 64) : decodeU64 (encodeU64 n) = n := by
  simp only [encodeU64, decodeU64]
  omega

theorem decodeStr_encode {s : List Nat} (rest : List Nat) (h : s.length < 2 ^ 64) :
    decodeStr (encodeBytes s ++ rest) = some (s, rest) := by
  unfold decodeStr encodeBytes
  rw [List.append_assoc]
  have h8 : readExact 8 (encodeU64 s.length ++ (s ++ rest)) =
      some (encodeU64 s.length, s ++ rest) := readExact_append (encodeU64 s.length) (s ++ rest)
  rw [h8]
  dsimp only
  rw [decodeU64_encodeU64 h]
  exact readExact_append s rest

theorem decodeStr_some_length {b k r : List Nat} (h : decodeStr b = some (k, r)) :
    8 ≤ b.length ∧ r.length ≤ b.length - 8 := by
  unfold decodeStr at h
  cases h8 : readExact 8 b with
  | none => rw [h8] at h; simp at h
  | some p =>
    rw [h8] at h
    obtain ⟨hle8, _, hdrop8⟩ := readExact_some h8
    obtain ⟨_, _, hdrop⟩ := readExact_some h
    refine ⟨hle8, ?_⟩
    subst hdrop
    calc (p.2.drop (decodeU64 p.1)).length ≤ p.2.length := by
            rw [List.length_drop]; omega
      _ ≤ b.length - 8 := by rw [hdrop8, List.length_drop]

theorem decodeSetBody_ok_length {b : List Nat} {c : Command} {rest : List Nat}
    (h : decodeSetBody b = .ok c rest) : rest.length ≤ b.length := by
  unfold decodeSetBody at h
  cases h1 : decodeStr b with
  | none => rw [h1] at h; simp at h
  | some p =>
    obtain ⟨k1, r1⟩ := p
    rw [h1] at h
    dsimp only at h
    cases h2 : decodeStr r1 with
    | none => rw [h2] at h; simp at h
    | some q =>
      obtain ⟨v1, r2⟩ := q
      rw [h2] at h
      dsimp only at h
      cases h
      have l1 := decodeStr_some_length h1
      have l2 := decodeStr_some_length h2
      omega

theorem decodeRemoveBody_ok_length {b : List Nat} {c : Command} {rest : List Nat}
    (h : decodeRemoveBody b = .ok c rest) : rest.length ≤ b.length := by
  unfold decodeRemoveBody at h
  cases h1 : decodeStr b with
  | none => rw [h1] at h; simp at h
  | some p =>
    obtain ⟨k1, r1⟩ := p
    rw [h1] at h
    dsimp only at h
    cases h
    have l1 := decodeStr_some_length h1
    omega

theorem decodeCmd_ok_length {b : List Nat} {c : Command} {rest : List Nat}
    (h : decodeCmd b = .ok c rest) : rest.length < b.length := by
  unfold decodeCmd at h
  cases h4 : readExact 4 b with
  | none => rw [h4] at h; simp at h
  | some p =>
    obtain ⟨tag, r1⟩ := p
    rw [h4] at h
    dsimp only at h
    obtain ⟨hle4, _, hdrop4⟩ := readExact_some h4
    have hp2 : r1.length = b.length - 4 := by rw [hdrop4, List.length_drop]
    by_cases ht0 : tag = [0, 0, 0, 0]
    · rw [if_pos ht0] at h
      have := decodeSetBody_ok_length h
      omega
    · rw [if_neg ht0] at h
      by_cases ht1 : tag = [1, 0, 0, 0]
      · rw [if_pos ht1] at h
        have := decodeRemoveBody_ok_length h
        omega
      · rw [if_neg ht1] at h
        simp at h

theorem decodeCmd_encode {c : Command} (rest : List Nat) (h : WFCmd c) :
    decodeCmd (encodeCmd c ++ rest) = .ok c rest := by
  cases c with
  | set k v =>
    obtain ⟨hk, hv⟩ := h
    unfold encodeCmd decodeCmd
    simp only [List.append_assoc]
    have h4 : readExact 4 ([0, 0, 0, 0] ++ (encodeBytes k ++ (encodeBytes v ++ rest))) =
        some ([0, 0, 0, 0], encodeBytes k ++ (encodeBytes v ++ rest)) :=
      readExact_append [0, 0, 0, 0] (encodeBytes k ++ (encodeBytes v ++ rest))
    rw [h4]
    dsimp only
    rw [if_pos rfl]
    unfold decodeSetBody
    rw [decodeStr_encode (encodeBytes v ++ rest) hk]
    dsimp only
    rw [decodeStr_encode rest hv]
  | remove k =>
    unfold encodeCmd decodeCmd
    simp only [List.append_assoc]
    have h4 : readExact 4 ([1, 0, 0, 0] ++ (encodeBytes k ++ rest)) =
        some ([1, 0, 0, 0], encodeBytes k ++ rest) :=
      readExact_append [1, 0, 0, 0] (encodeBytes k ++ rest)
    rw [h4]
    dsimp only
    rw [if_neg (by decide), if_pos rfl]
    unfold decodeRemoveBody
    rw [decodeStr_encode rest h]

/-! The fuel of `loadIter` is irrelevant as soon as it exceeds the number of
remaining bytes, so `loadFrom` obeys the exact loop-step equation of
`KvStore::load`. -/

theorem loadIter_succ (f : Nat) (b : List Nat) (m : Index) :
    loadIter (f + 1) b m =
      match decodeCmd b with
      | .eofHit => .ok m
      | .corrupt => .error .serde
      | .ok c rest => loadIter f rest (applyCmd m c) := rfl

theorem loadIter_congr (f : Nat) : ∀ (g : Nat) (b : List Nat) (m : Index),
    b.length < f → b.length < g → loadIter f b m = loadIter g b m := by
  induction f with
  | zero => intro g b m hf _; omega
  | succ f ih =>
    intro g b m hf hg
    cases g with
    | zero => omega
    | succ g =>
      rw [loadIter_succ, loadIter_succ]
      cases hdec : decodeCmd b with
      | eofHit => rfl
      | corrupt => rfl
      | ok c rest =>
        have hlen := decodeCmd_ok_length hdec
        exact ih g rest (applyCmd m c) (by omega) (by omega)

theorem loadFrom_step (b : List Nat) (m : Index) :
    loadFrom b m =
      match decodeCmd b with
      | .eofHit => .ok m
      | .corrupt => .error .serde
      | .ok c rest => loadFrom rest (applyCmd m c) := by
  rw [loadFrom, loadIter_succ]
  cases hdec : decodeCmd b with
  | eofHit => rfl
  | corrupt => rfl
  | ok c rest =>
    have hlen := decodeCmd_ok_length hdec
    exact loadIter_congr _ _ _ _ (by omega) (by omega)

theorem encodeList_append (a b : List Command) :
    encodeList (a ++ b) = encodeList a ++ encodeList b := by
  induction a with
  | nil => rfl
  | cons c t ih => simp [encodeList, ih, List.append_assoc]

theorem loadFrom_encodeList (cs : List Command) : ∀ (m : Index), WFCmds cs →
    loadFrom (encodeList cs) m = .ok (cs.foldl applyCmd m) := by
  induction cs with
  | nil => intro m _; rfl
  | cons c t ih =>
    intro m h
    rw [show encodeList (c :: t) = encodeCmd c ++ encodeList t from rfl]
    rw [loadFrom_step]
    rw [decodeCmd_encode (encodeList t) (h c (by simp))]
    dsimp only
    rw [ih (applyCmd m c) (fun x hx => h x (by simp [hx]))]
    rfl

/-! Lookup facts about the association-list model of the `HashMap`. -/

theorem Index.get_cons (p : List Nat × List Nat) (t : Index) (k : List Nat) :
    Index.get (p :: t) k = if p.1 = k then some p.2 else Index.get t k := rfl

theorem Index.erase_cons (p : List Nat × List Nat) (t : Index) (k : List Nat) :
    Index.erase (p :: t) k = if p.1 = k then Index.erase t k else p :: Index.erase t k := rfl

theorem Index.get_erase_self (m : Index) (k : List Nat) :
    Index.get (Index.erase m k) k = none := by
  induction m with
  | nil => rfl
  | cons p t ih =>
    rw [Index.erase_cons]
    by_cases h : p.1 = k
    · rw [if_pos h]; exact ih
    · rw [if_neg h, Index.get_cons, if_neg h]; exact ih

theorem Index.get_erase_ne (m : Index) (k k2 : List Nat) (h : k ≠ k2) :
    Index.get (Index.erase m k) k2 = Index.get m k2 := by
  induction m with
  | nil => rfl
  | cons p t ih =>
    rw [Index.erase_cons]
    by_cases hp : p.1 = k
    · rw [if_pos hp, ih, Index.get_cons,
        if_neg (fun hc => h (hp.symm.trans hc))]
    · rw [if_neg hp, Index.get_cons, Index.get_cons, ih]

theorem Index.get_insert_self (m : Index) (k v : List Nat) :
    Index.get (Index.insert m k v) k = some v := by
  simp [Index.insert, Index.get]

theorem Index.get_insert_ne (m : Index) (k k2 v : List Nat) (h : k ≠ k2) :
    Index.get (Index.insert m k v) k2 = Index.get m k2 := by
  simp only [Index.insert, Index.get, h, if_neg h]
  exact Index.get_erase_ne m k k2 h

/-! Claim theorems. -/

/-- Claim C1 (code evaluation at the failing input): the spec demands that a
log truncated in the middle of a record makes `open` fail with a corruption
error, but in the code any `Io(UnexpectedEof)` — even one raised inside a
record — breaks the replay loop and returns `Ok`.  Concretely: the 52-byte
log encoding `[Set{foo,bar}, Set{baz,qux}]` truncated to its first 31 bytes
(mid second record) opens successfully and silently yields only the partial
prefix `{foo ↦ bar}` of complete records. -/
theorem C1_truncated_log_opens_silently :
    (encodeList [Command.set fooB barB, Command.set bazB quxB]).length = 52 ∧
    KvStore.openStore ((encodeList [Command.set fooB barB, Command.set bazB quxB]).take 31) =
      .ok ⟨(encodeList [Command.set fooB barB, Command.set bazB quxB]).take 31, 0,
           [(fooB, barB)]⟩ := by
  decide

/-- Claim C2 (code evaluation at the failing input): the claim — like the
spec — says `remove` appends the `Remove` record to the log unconditionally
and that a subsequent replay of that log does not error.  `remove` does
return `KeyNotFound` for the absent key, but because `open` opens the log
without append mode and never seeks, on a store reopened over the
well-formed log `[Set{"aa","bb"}]` the record is written at offset 0,
overwriting the log's start instead of appending: the file becomes the
`Remove` record followed by the five leftover bytes `[0,0,0,98,98]`, and
replaying that file aborts with an invalid-tag corruption error. -/
theorem C2_remove_overwrites_log_start :
    KvStore.openStore (encodeList [Command.set aaB bbB]) =
      .ok ⟨encodeList [Command.set aaB bbB], 0, [(aaB, bbB)]⟩ ∧
    ((⟨encodeList [Command.set aaB bbB], 0, [(aaB, bbB)]⟩ : KvStore).remove
        missB (.ok ())).1 = .error .keyNotFound ∧
    ((⟨encodeList [Command.set aaB bbB], 0, [(aaB, bbB)]⟩ : KvStore).remove
        missB (.ok ())).2.disk = encodeCmd (Command.remove missB) ++ [0, 0, 0, 98, 98] ∧
    ((⟨encodeList [Command.set aaB bbB], 0, [(aaB, bbB)]⟩ : KvStore).remove
        missB (.ok ())).2.disk ≠
      encodeList [Command.set aaB bbB] ++ encodeCmd (Command.remove missB) ∧
    KvStore.load ((⟨encodeList [Command.set aaB bbB], 0, [(aaB, bbB)]⟩ : KvStore).remove
        missB (.ok ())).2.disk = .error .serde := by
  decide

/-- Claim C3: when the log append step of `set` fails, the call returns that
error and the store — in particular its in-memory map — is exactly as it was
before the call (write-before-apply atomicity). -/
theorem C3_set_append_failure (s : KvStore) (k v : List Nat) (e : KvsError) :
    (s.set k v (.error e)).1 = .error e ∧
    (s.set k v (.error e)).2.map = s.map ∧
    (s.set k v (.error e)).2 = s :=
  ⟨rfl, rfl, rfl⟩

/-- Claim C4 (code evaluation at the failing input): durability across
reopen fails on a path whose existing log file is the well-formed
`[Set{"foo","bar"}, Remove{"foo"}]`.  `open` replays it to the empty map and
leaves the writer cursor at offset 0; the subsequent `set("foo","bar")`
succeeds but writes its record over the byte-identical first record, leaving
the file unchanged, so the second `open` replays Set-then-Remove and
`get("foo")` returns `None`, not `Some("bar")`. -/
theorem C4_reopen_set_overwritten_by_old_remove :
    KvStore.openStore (encodeList [Command.set fooB barB, Command.remove fooB]) =
      .ok ⟨encodeList [Command.set fooB barB, Command.remove fooB], 0, []⟩ ∧
    ((⟨encodeList [Command.set fooB barB, Command.remove fooB], 0, []⟩ : KvStore).set
        fooB barB (.ok ())).1 = .ok () ∧
    ((⟨encodeList [Command.set fooB barB, Command.remove fooB], 0, []⟩ : KvStore).set
        fooB barB (.ok ())).2.disk =
      encodeList [Command.set fooB barB, Command.remove fooB] ∧
    ((⟨encodeList [Command.set fooB barB, Command.remove fooB], 0, []⟩ : KvStore).get
        fooB).1 ≠ .ok (some barB) := by
  decide

/-- Claim C5: record round-trip — decoding the encoding of any `Command`
(whose strings fit the `u64` length fields, as every Rust `String` does)
recovers exactly that command and consumes exactly its bytes, for any trailing
bytes, so record boundaries are recoverable without an external index. -/
theorem C5_roundtrip (c : Command) (rest : List Nat) (h : WFCmd c) :
    decodeCmd (encodeCmd c ++ rest) = .ok c rest :=
  decodeCmd_encode rest h

/-- Claim C5 witness: round-trip of a concrete `Set` record followed by
further bytes. -/
theorem C5_roundtrip_witness :
    decodeCmd (encodeCmd (.set fooB barB) ++ [7, 7, 7]) = .ok (.set fooB barB) [7, 7, 7] :=
  C5_roundtrip (.set fooB barB) [7, 7, 7] (by decide)

/-- Claim C6 (code evaluation at the failing input): the index-derivability
invariant breaks on any store reopened over a non-empty log.  Open the
well-formed log `[Set{"foo","bar"}]` (writer cursor at offset 0), then run
one successful `set("baz","qux")`: the new record overwrites the old one, so
the in-memory map holds both keys while replaying the log file from the
empty map yields only `{baz ↦ qux}` — the map is not derivable from the
log. -/
theorem C6_overwrite_breaks_derivability :
    KvStore.openStore (encodeList [Command.set fooB barB]) =
      .ok ⟨encodeList [Command.set fooB barB], 0, [(fooB, barB)]⟩ ∧
    ((⟨encodeList [Command.set fooB barB], 0, [(fooB, barB)]⟩ : KvStore).set
        bazB quxB (.ok ())).1 = .ok () ∧
    ((⟨encodeList [Command.set fooB barB], 0, [(fooB, barB)]⟩ : KvStore).set
        bazB quxB (.ok ())).2.map = [(bazB, quxB), (fooB, barB)] ∧
    KvStore.load ((⟨encodeList [Command.set fooB barB], 0, [(fooB, barB)]⟩ : KvStore).set
        bazB quxB (.ok ())).2.disk = .ok [(bazB, quxB)] ∧
    ([(bazB, quxB)] : Index) ≠ [(bazB, quxB), (fooB, barB)] := by
  decide

/-- Claim C7: after a successful `set(k,v)`, `remove(k)` succeeds and a
subsequent `get(k)` returns `None`; a second `remove(k)` returns the
`KeyNotFound` error. -/
theorem C7_remove_semantics (s : KvStore) (k v : List Nat) :
    ((s.set k v (.ok ())).2.remove k (.ok ())).1 = .ok () ∧
    ((((s.set k v (.ok ())).2.remove k (.ok ())).2).get k).1 = .ok none ∧
    ((((s.set k v (.ok ())).2.remove k (.ok ())).2).remove k (.ok ())).1 =
      .error .keyNotFound := by
  refine ⟨?_, ?_, ?_⟩
  · dsimp [KvStore.set, KvStore.remove]
    rw [Index.get_insert_self]
    rfl
  · dsimp [KvStore.set, KvStore.remove, KvStore.get]
    rw [Index.get_erase_self]
  · dsimp [KvStore.set, KvStore.remove]
    rw [Index.get_erase_self]
    rfl

/-- Claim C8: `get` is a pure read — it returns the key's current binding in
the in-memory map (or `None`), its value depends on the map alone, and it
leaves the whole store state (map and log file) unchanged. -/
theorem C8_get_pure (s : KvStore) (k : List Nat) :
    (s.get k).1 = .ok (Index.get s.map k) ∧ (s.get k).2 = s :=
  ⟨rfl, rfl⟩

/-- Claim C9: replay is deterministic — replaying the same log twice into two
fresh empty maps yields identical final map contents. -/
theorem C9_replay_deterministic (b : List Nat) (m1 m2 : Index)
    (h1 : KvStore.load b = .ok m1) (h2 : KvStore.load b = .ok m2) : m1 = m2 := by
  rw [h1] at h2
  cases h2
  rfl

/-- Claim C9 witness: both replays of a concrete one-record log produce the
same map. -/
theorem C9_replay_deterministic_witness : ([(fooB, barB)] : Index) = [(fooB, barB)] :=
  C9_replay_deterministic (encodeCmd (.set fooB barB)) [(fooB, barB)] [(fooB, barB)]
    (by decide) (by decide)

/-- Claim C10: frame property of `set` — a successful `set(k,v)` leaves the
binding of every other key unchanged, so `get(k2)` returns the same result
before and after the call. -/
theorem C10_set_frame (s : KvStore) (k k2 v : List Nat) (h : k ≠ k2) :
    ((s.set k v (.ok ())).2.get k2).1 = (s.get k2).1 := by
  dsimp [KvStore.set, KvStore.get]
  rw [Index.get_insert_ne s.map k k2 v h]

/-- Claim C10 witness: setting `foo` does not disturb `baz` on a fresh
store. -/
theorem C10_set_frame_witness :
    (((⟨[], 0, []⟩ : KvStore).set fooB barB (.ok ())).2.get bazB).1 =
      ((⟨[], 0, []⟩ : KvStore).get bazB).1 :=
  C10_set_frame ⟨[], 0, []⟩ fooB bazB barB (by decide)

end RustKV
